import Mathlib

/-
Verification of the maxun-core workflow interpreter
(server/src/workflow-management and the maxun-core Interpreter class).

The development shallowly embeds the interpreter's pure decision logic:
the guard matcher `applicable` with its leaf predicates, the tail-first
matcher scan `getMatchingActionId`, the page-state URL override of
`getState`, the action executor `carryOutSteps` (as a trace semantics over
an oracle of driver outcomes), the main loop `runLoop` (as a step function
over oracle-supplied page observations), and the pagination engine
`handlePagination` (per-strategy loop models over oracle-supplied page
observations).  Browser effects (DOM queries, navigation, timeouts) are
supplied by observation records; everything the interpreter itself
computes from those observations is translated statement by statement
from the TypeScript source.
-/

/--
A guard value that is either a plain string or a regular expression.
The source checks `typeof value` / `constructor.name` to distinguish the
two; a regular expression is embedded abstractly as its match predicate
on strings.
-/
inductive StrOrRe where
  | str (s : String)
  | regex (test : String → Bool)

/--
Page state as produced by `Interpreter.getState`: the (possibly
overridden) URL, the cookie jar flattened to name-value pairs, and the
list of candidate selectors currently attached to the DOM.  The source
types the URL as `any`; the matcher model uses the string case (the
separate `getStateUrl` model covers the non-string values the extractor
can produce).
-/
structure PageState where
  url : String
  cookies : List (String × String)
  selectors : List String
deriving DecidableEq, Repr

mutual
/--
A `where` clause of a workflow pair, mirroring the `Where` type of
maxun-core: the three base keys (`url`, `cookies`, `selectors`), the
logic operators `$and` / `$or` / `$not`, and the meta operators
`$before` / `$after`.  A missing key is `none` / `.none`; the JS object
is a record, so each key occurs at most once and the top level is a
conjunction of the present keys.
-/
inductive Where where
  | mk (url : Option StrOrRe)
       (cookies : Option (List (String × StrOrRe)))
       (selectors : Option (List String))
       (opAnd : WOpt)
       (opOr : WOpt)
       (opNot : WOne)
       (opBefore : Option StrOrRe)
       (opAfter : Option StrOrRe)

/-- An optional list of sub-clauses (the value of `$and` / `$or`). -/
inductive WOpt where
  | none
  | some (l : WList)

/-- A list of sub-clauses. -/
inductive WList where
  | nil
  | cons (w : Where) (l : WList)

/-- An optional single sub-clause (the value of `$not`). -/
inductive WOne where
  | none
  | some (w : Where)
end

/-- Projection of the `url` key of a `where` clause. -/
def Where.url : Where → Option StrOrRe
  | .mk u _ _ _ _ _ _ _ => u

/-- Projection of the `selectors` key of a `where` clause. -/
def Where.selectors : Where → Option (List String)
  | .mk _ _ s _ _ _ _ _ => s

/-- Concatenation of sub-clause lists. -/
def WList.append : WList → WList → WList
  | .nil, l => l
  | .cons w l, l' => .cons w (l.append l')

/--
JavaScript string truthiness: the empty string is falsy, every other
string is truthy.  The `inclusive` helper of `Interpreter.applicable`
guards every scalar comparison with `parsedSuperset[key] && ...`.
-/
def jsTruthyStr (s : String) : Bool :=
  !s.isEmpty

/--
Comparison of a state scalar against a guard value, as in
`Interpreter.applicable`: strict string equality for a string guard
value, a regular-expression test for a regex guard value.  The same
shape is used for `url`, for each cookie, and (as `testRegexString` in
the source) for the `$before` / `$after` meta operators.
-/
def testRegexString : StrOrRe → String → Bool
  | .str s, x => x == s
  | .regex p, x => p x

/--
The `url` leaf of the matcher: with the key present, the state URL must
be truthy and equal the guard string (or pass the guard regex).
-/
def urlOk : Option StrOrRe → PageState → Bool
  | none, _ => true
  | some v, st => jsTruthyStr st.url && testRegexString v st.url

/--
The `cookies` leaf of the matcher: for every guard entry the cookie must
exist in the state, be truthy, and equal the guard string (or pass the
guard regex), per the recursive `inclusive` call on the cookie objects.
-/
def cookiesOk : Option (List (String × StrOrRe)) → PageState → Bool
  | none, _ => true
  | some g, st =>
      g.all fun nv =>
        match st.cookies.lookup nv.1 with
        | none => false
        | some cv => jsTruthyStr cv && testRegexString nv.2 cv

/--
The `selectors` leaf of the matcher, from `Interpreter.applicable`: two
empty lists match (the explicit special case for `url` and `selectors`),
otherwise some guard selector must be contained in the state selectors.
-/
def selectorsOk : Option (List String) → PageState → Bool
  | none, _ => true
  | some g, st =>
      if g = [] ∧ st.selectors = [] then true
      else g.any fun s => st.selectors.contains s

/--
The `$before` meta operator: the source computes
`!usedActions.find(testRegexString)`, so the clause holds when no fired
id matches the guard value, or when the first matching fired id is the
empty string (a falsy find result negates to true).
-/
def beforeOk : Option StrOrRe → List String → Bool
  | none, _ => true
  | some v, used =>
      match used.find? (fun x => testRegexString v x) with
      | none => true
      | some x => x.isEmpty

/--
The `$after` meta operator: the source computes
`!!usedActions.find(testRegexString)`, so the clause holds when some
fired id matches the guard value and the first such id is truthy
(non-empty).
-/
def afterOk : Option StrOrRe → List String → Bool
  | none, _ => true
  | some v, used =>
      match used.find? (fun x => testRegexString v x) with
      | none => false
      | some x => !x.isEmpty

mutual
/--
`Interpreter.applicable`: a `where` clause holds in a page state iff
every present key holds.  The logic operators recurse; note that the
source recurses with `this.applicable(x, context)`, so the fired-ids
history is dropped (defaulted to the empty list) inside `$and`, `$or`
and `$not`.
-/
def applicable : Where → PageState → List String → Bool
  | .mk u c s a o n b f, st, used =>
      urlOk u st && cookiesOk c st && selectorsOk s st &&
      wandOk a st && worOk o st && wnotOk n st &&
      beforeOk b used && afterOk f used

/-- The `$and` key: absent means no constraint, otherwise `Array.every`. -/
def wandOk : WOpt → PageState → Bool
  | .none, _ => true
  | .some l, st => wallOk l st

/-- The `$or` key: absent means no constraint, otherwise `Array.some`. -/
def worOk : WOpt → PageState → Bool
  | .none, _ => true
  | .some l, st => wanyOk l st

/-- Conjunction over a sub-clause list (history dropped, as in source). -/
def wallOk : WList → PageState → Bool
  | .nil, _ => true
  | .cons w l, st => applicable w st [] && wallOk l st

/-- Disjunction over a sub-clause list (history dropped, as in source). -/
def wanyOk : WList → PageState → Bool
  | .nil, _ => false
  | .cons w l, st => applicable w st [] || wanyOk l st

/-- The `$not` key: absent means no constraint, otherwise negation. -/
def wnotOk : WOne → PageState → Bool
  | .none, _ => true
  | .some w, st => !(applicable w st [])
end

/-- The empty `where` clause (an empty JS object), which matches anything. -/
def emptyWhere : Where :=
  .mk none none none .none .none .none none none

/-- A guard consisting solely of a `selectors` key. -/
def selGuard (g : List String) : Where :=
  .mk none none (some g) .none .none .none none none

/-- A guard consisting solely of a `$before` key. -/
def beforeGuard (v : StrOrRe) : Where :=
  .mk none none none .none .none .none (some v) none

/-- A guard consisting solely of a `$after` key. -/
def afterGuard (v : StrOrRe) : Where :=
  .mk none none none .none .none .none none (some v)

example : applicable emptyWhere ⟨"u", [], []⟩ [] = true := by decide
example : applicable (selGuard ["a"]) ⟨"u", [], ["b", "a"]⟩ [] = true := by decide
example : applicable (selGuard ["a"]) ⟨"u", [], ["b"]⟩ [] = false := by decide
example : applicable (selGuard []) ⟨"u", [], []⟩ [] = true := by decide
example : applicable (beforeGuard (.str "x")) ⟨"u", [], []⟩ ["x"] = false := by decide
example : applicable (beforeGuard (.str "")) ⟨"u", [], []⟩ [""] = true := by decide
example : applicable (afterGuard (.str "")) ⟨"u", [], []⟩ [""] = false := by decide

/-! ### Guard matcher lemmas -/

/-- A guard holding only a `selectors` key reduces to the selectors leaf. -/
theorem applicable_selGuard (g : List String) (st : PageState) (used : List String) :
    applicable (selGuard g) st used = selectorsOk (some g) st := by
  simp [applicable, selGuard, urlOk, cookiesOk, wandOk, worOk, wnotOk, beforeOk, afterOk]

/-- A guard holding only a `$before` key reduces to the meta leaf. -/
theorem applicable_beforeGuard (v : StrOrRe) (st : PageState) (used : List String) :
    applicable (beforeGuard v) st used = beforeOk (some v) used := by
  simp [applicable, beforeGuard, urlOk, cookiesOk, selectorsOk, wandOk, worOk, wnotOk, afterOk]

/-- A guard holding only a `$after` key reduces to the meta leaf. -/
theorem applicable_afterGuard (v : StrOrRe) (st : PageState) (used : List String) :
    applicable (afterGuard v) st used = afterOk (some v) used := by
  simp [applicable, afterGuard, urlOk, cookiesOk, selectorsOk, wandOk, worOk, wnotOk, beforeOk]

/--
Claim C5 (corrected): the `selectors` clause of a guard matches a page
state iff the guard list and the state list share an element, or both
lists are empty (the explicit special case in `Interpreter.applicable`).
-/
theorem c5_selectors_amended (G P : List String) (u : String)
    (ck : List (String × String)) (used : List String) :
    applicable (selGuard G) ⟨u, ck, P⟩ used = true ↔
      ((∃ s ∈ G, s ∈ P) ∨ (G = [] ∧ P = [])) := by
  rw [applicable_selGuard]
  simp only [selectorsOk]
  by_cases h : G = [] ∧ P = []
  · simp [h]
  · simp only [if_neg h, List.any_eq_true]
    constructor
    · rintro ⟨s, hs, hm⟩
      exact Or.inl ⟨s, hs, List.elem_iff.mp hm⟩
    · rintro (⟨s, hs, hm⟩ | hboth)
      · exact ⟨s, hs, List.elem_iff.mpr hm⟩
      · exact absurd hboth h

/--
Claim C5 counterexample: with an empty guard list and an empty state
list the clause matches even though the intersection is empty, refuting
the claim that the clause matches exactly when the lists intersect.
-/
theorem c5_selectors_counterexample :
    applicable (selGuard []) ⟨"https://x", [], []⟩ [] = true ∧
      ¬ ∃ s ∈ ([] : List String), s ∈ ([] : List String) := by
  decide

/--
Claim C6 (corrected): a `$before` clause always evaluates to the
negation of the corresponding `$after` clause; and on histories whose
fired ids are all non-empty strings, `$before: v` matches iff no fired
id matches v and `$after: v` matches iff some fired id matches v.  (The
source tests the JS truthiness of `usedActions.find(...)`, so an empty
fired id is treated as not found.)
-/
theorem c6_meta_amended (v : StrOrRe) (H : List String) (st : PageState) :
    (applicable (beforeGuard v) st H = !(applicable (afterGuard v) st H)) ∧
    ((∀ x ∈ H, x ≠ "") →
      ((applicable (beforeGuard v) st H = true ↔ ¬ ∃ x ∈ H, testRegexString v x = true) ∧
       (applicable (afterGuard v) st H = true ↔ ∃ x ∈ H, testRegexString v x = true))) := by
  rw [applicable_beforeGuard, applicable_afterGuard]
  simp only [beforeOk, afterOk]
  constructor
  · cases hf : H.find? (fun x => testRegexString v x) <;> simp [hf]
  · intro hne
    cases hf : H.find? (fun x => testRegexString v x) with
    | none =>
      have hnone : ∀ x ∈ H, ¬ (testRegexString v x = true) := by
        intro x hx
        simpa using List.find?_eq_none.mp hf x hx
      simp only [hf]
      constructor
      · simp only [iff_true_intro trivial, true_iff]
        rintro ⟨x, hx, hm⟩
        exact hnone x hx hm
      · constructor
        · intro hfalse
          cases hfalse
        · rintro ⟨x, hx, hm⟩
          exact absurd hm (hnone x hx)
    | some x =>
      have hmem : x ∈ H := List.mem_of_find?_eq_some hf
      have hmatch : testRegexString v x = true := List.find?_some hf
      have hxe : x.isEmpty = false := by
        cases hxe : x.isEmpty
        · rfl
        · exact absurd ((String.isEmpty_iff x).mp hxe) (hne x hmem)
      simp only [hf, hxe]
      constructor
      · constructor
        · intro hfalse
          cases hfalse
        · intro hcon
          exact absurd ⟨x, hmem, hmatch⟩ hcon
      · simp only [Bool.not_false, true_iff]
        exact ⟨x, hmem, hmatch⟩

/--
Claim C6 witness: at a concrete non-empty history the amended
characterization is discharged.
-/
theorem c6_meta_amended_witness :
    (applicable (beforeGuard (.str "login")) ⟨"u", [], []⟩ ["login"] =
      !(applicable (afterGuard (.str "login")) ⟨"u", [], []⟩ ["login"])) ∧
    (applicable (afterGuard (.str "login")) ⟨"u", [], []⟩ ["login"] = true ↔
      ∃ x ∈ ["login"], testRegexString (.str "login") x = true) :=
  ⟨(c6_meta_amended (.str "login") ["login"] ⟨"u", [], []⟩).1,
   ((c6_meta_amended (.str "login") ["login"] ⟨"u", [], []⟩).2 (by decide)).2⟩

/--
Claim C6 counterexample: with the empty string as guard value and as the
single fired id, `$before` matches and `$after` does not, even though an
element of the history equals the guard value, refuting the claim as
stated for arbitrary histories.
-/
theorem c6_meta_counterexample :
    applicable (beforeGuard (.str "")) ⟨"u", [], []⟩ [""] = true ∧
    applicable (afterGuard (.str "")) ⟨"u", [], []⟩ [""] = false ∧
    ("" ∈ [""] ∧ testRegexString (.str "") "" = true) := by
  decide

/-- Conjunction over an appended sub-clause list splits. -/
theorem wallOk_append : ∀ (l1 l2 : WList) (st : PageState),
    wallOk (l1.append l2) st = (wallOk l1 st && wallOk l2 st)
  | .nil, l2, st => by simp [WList.append, wallOk]
  | .cons w l, l2, st => by
      simp [WList.append, wallOk, wallOk_append l l2 st, Bool.and_assoc]

/-- Disjunction over an appended sub-clause list splits. -/
theorem wanyOk_append : ∀ (l1 l2 : WList) (st : PageState),
    wanyOk (l1.append l2) st = (wanyOk l1 st || wanyOk l2 st)
  | .nil, l2, st => by simp [WList.append, wanyOk]
  | .cons w l, l2, st => by
      simp [WList.append, wanyOk, wanyOk_append l l2 st, Bool.or_assoc]

/--
Claim C7 (confirmed): inserting a child into a `$and` node can only make
the matcher more restrictive — if the extended guard matches, the guard
without that child matches — and inserting a child into a `$or` node can
only make it more permissive — if the original guard matches, the
extended guard matches.  All other keys of the guard are held fixed.
-/
theorem c7_logic_monotone (u : Option StrOrRe)
    (ck : Option (List (String × StrOrRe))) (s : Option (List String))
    (n : WOne) (b f : Option StrOrRe) (st : PageState) (used : List String) :
    (∀ (o : WOpt) (l1 l2 : WList) (c : Where),
      applicable (.mk u ck s (.some (l1.append (.cons c l2))) o n b f) st used = true →
      applicable (.mk u ck s (.some (l1.append l2)) o n b f) st used = true) ∧
    (∀ (a : WOpt) (m1 m2 : WList) (d : Where),
      applicable (.mk u ck s a (.some (m1.append m2)) n b f) st used = true →
      applicable (.mk u ck s a (.some (m1.append (.cons d m2))) n b f) st used = true) := by
  constructor
  · intro o l1 l2 c h
    simp only [applicable, wandOk, wallOk_append, wallOk, Bool.and_eq_true] at h ⊢
    tauto
  · intro a m1 m2 d h
    simp only [applicable, worOk, wanyOk_append, wanyOk, Bool.and_eq_true,
      Bool.or_eq_true] at h ⊢
    tauto

/--
Claim C7 witness: concrete instances of both monotonicity directions,
with the extended conjunction matching and the base disjunction
matching.
-/
theorem c7_logic_monotone_witness :
    applicable (.mk none none none (.some WList.nil) .none .none none none)
      ⟨"u", [], ["a"]⟩ [] = true ∧
    applicable (.mk none none none .none
        (.some (WList.cons (selGuard ["zzz"]) (WList.cons (selGuard ["a"]) WList.nil)))
        .none none none) ⟨"u", [], ["a"]⟩ [] = true :=
  ⟨(c7_logic_monotone none none none .none none none ⟨"u", [], ["a"]⟩ []).1
      .none WList.nil WList.nil (selGuard ["a"]) (by decide),
   (c7_logic_monotone none none none .none none none ⟨"u", [], ["a"]⟩ []).2
      .none WList.nil (WList.cons (selGuard ["a"]) WList.nil) (selGuard ["zzz"]) (by decide)⟩

/-! ### Workflow pairs and the matcher scan -/

/--
The argument value of a workflow action: absent, a single (string)
value, or a positional list, as in the `What` type of maxun-core.
-/
inductive ArgsV where
  | noArgs
  | single (s : String)
  | list (l : List String)
deriving DecidableEq, Repr

/-- One action of a pair body: an action name and its arguments. -/
structure WhatStep where
  action : String
  args : ArgsV
deriving DecidableEq, Repr

/--
A where-what pair of a workflow: an optional stable id, a guard and a
body.  The source field `where` is a reserved word here and is named
`whereClause`.
-/
structure Pair where
  id : Option String
  whereClause : Where
  what : List WhatStep

/-- Default pair used for out-of-range list reads. -/
def defaultPair : Pair :=
  ⟨none, emptyWhere, []⟩

/--
Downward scan of `Interpreter.getMatchingActionId`: try index `n - 1`,
then `n - 2`, and so on; the fuel argument is the exclusive upper bound
of the next index to try.
-/
def findLastIdx (w : List Pair) (st : PageState) (used : List String) : Nat → Option Nat
  | 0 => none
  | n + 1 =>
      if applicable (w.getD n defaultPair).whereClause st used then some n
      else findLastIdx w st used n

/--
`Interpreter.getMatchingActionId`: scan the workflow copy from the last
pair to the first and return the first index whose guard applies; the JS
function returns `undefined` (here `none`) when no guard applies.
-/
def getMatchingActionId (w : List Pair) (st : PageState) (used : List String) : Option Nat :=
  findLastIdx w st used w.length

/-- Soundness of the downward scan, by induction on the scan bound. -/
theorem findLastIdx_sound (w : List Pair) (st : PageState) (used : List String) :
    ∀ (n : Nat), n ≤ w.length → ∀ (i : Nat), findLastIdx w st used n = some i →
      i < w.length ∧
      applicable (w.getD i defaultPair).whereClause st used = true ∧
      ∀ j, i < j → j < n → applicable (w.getD j defaultPair).whereClause st used = false := by
  intro n
  induction n with
  | zero => intro _ i h; cases h
  | succ n ih =>
    intro hn i h
    rw [findLastIdx] at h
    by_cases happ : applicable (w.getD n defaultPair).whereClause st used = true
    · rw [if_pos happ] at h
      cases h
      refine ⟨by omega, happ, ?_⟩
      intro j hij hjn
      omega
    · rw [if_neg happ] at h
      obtain ⟨hi, hap, hmax⟩ := ih (by omega) i h
      refine ⟨hi, hap, ?_⟩
      intro j hij hjn
      by_cases hj : j = n
      · subst hj
        exact Bool.not_eq_true _ ▸ Bool.of_not_eq_true happ
      · exact hmax j hij (by omega)

/--
Claim C1 (confirmed): if the matcher returns index `i` for a workflow
copy, a page state and a fired-ids history, then the guard of pair `i`
evaluates to true on that state and history, and no guard of a later
pair (larger index) evaluates to true.
-/
theorem c1_match_sound (w : List Pair) (st : PageState) (used : List String) (i : Nat)
    (h : getMatchingActionId w st used = some i) :
    i < w.length ∧
    applicable (w.getD i defaultPair).whereClause st used = true ∧
    ∀ j, i < j → j < w.length → applicable (w.getD j defaultPair).whereClause st used = false :=
  findLastIdx_sound w st used w.length (Nat.le_refl _) i h

/--
Claim C1 witness: a two-pair workflow whose first guard matches the
state and whose second does not; the matcher returns index 0 and the
later guard indeed evaluates to false.
-/
theorem c1_match_sound_witness :
    0 < ([⟨some "p0", selGuard ["a"], []⟩, ⟨some "p1", selGuard ["b"], []⟩] : List Pair).length ∧
    applicable (([⟨some "p0", selGuard ["a"], []⟩, ⟨some "p1", selGuard ["b"], []⟩] : List Pair).getD 0
        defaultPair).whereClause ⟨"u", [], ["a"]⟩ [] = true ∧
    ∀ j, 0 < j → j < ([⟨some "p0", selGuard ["a"], []⟩, ⟨some "p1", selGuard ["b"], []⟩] : List Pair).length →
      applicable (([⟨some "p0", selGuard ["a"], []⟩, ⟨some "p1", selGuard ["b"], []⟩] : List Pair).getD j
        defaultPair).whereClause ⟨"u", [], ["a"]⟩ [] = false :=
  c1_match_sound [⟨some "p0", selGuard ["a"], []⟩, ⟨some "p1", selGuard ["b"], []⟩]
    ⟨"u", [], ["a"]⟩ [] 0 (by decide)

/-! ### Page-state URL override of getState -/

/--
JavaScript strict inequality between the `url` value of a guard and a
string: an absent value (`undefined`) is unequal to every string, a
string compares by value, and a regex object is unequal to every
string.
-/
def jsUrlNeq : Option StrOrRe → String → Bool
  | none, _ => true
  | some (.str s), t => s != t
  | some (.regex _), _ => true

/--
The URL override of `Interpreter.getState`: start from the live page
URL; if the workflow copy has a last remaining pair whose `where.url`
is strictly unequal to the live URL and strictly unequal to the string
"about:blank", report that pair's `where.url` value instead (which is
`none` when the pair has no `url` key, and the regex when the key holds
a regex).
-/
def getStateUrl (copy : List Pair) (live : String) : Option StrOrRe :=
  match copy.getLast? with
  | none => some (.str live)
  | some action =>
      if jsUrlNeq action.whereClause.url live && jsUrlNeq action.whereClause.url "about:blank" then
        action.whereClause.url
      else some (.str live)

/--
Claim C9 (corrected): the reported URL is the live URL when the copy is
empty, or when the last pair's `where.url` is a string equal to the
live URL or equal to "about:blank"; it is the last pair's string URL
when that string differs from both; and — the corrections — it is
undefined (`none`) when the last pair has no `url` key, and the regex
itself when the `url` key holds a regex.
-/
theorem c9_url_override_amended (copy : List Pair) (live : String) :
    (copy.getLast? = none → getStateUrl copy live = some (.str live)) ∧
    (∀ p, copy.getLast? = some p →
      ((p.whereClause.url = none → getStateUrl copy live = none) ∧
       (∀ s, p.whereClause.url = some (.str s) → s ≠ live → s ≠ "about:blank" →
          getStateUrl copy live = some (.str s)) ∧
       (∀ s, p.whereClause.url = some (.str s) → (s = live ∨ s = "about:blank") →
          getStateUrl copy live = some (.str live)) ∧
       (∀ t, p.whereClause.url = some (.regex t) → getStateUrl copy live = some (.regex t)))) := by
  constructor
  · intro h
    simp [getStateUrl, h]
  · intro p hp
    refine ⟨?_, ?_, ?_, ?_⟩
    · intro hu
      simp [getStateUrl, hp, jsUrlNeq, hu]
    · intro s hu hs1 hs2
      simp [getStateUrl, hp, jsUrlNeq, hu, hs1, hs2]
    · intro s hu hs
      cases hs with
      | inl h1 => simp [getStateUrl, hp, jsUrlNeq, hu, h1]
      | inr h2 => simp [getStateUrl, hp, jsUrlNeq, hu, h2]
    · intro t hu
      simp [getStateUrl, hp, jsUrlNeq, hu]

/--
Claim C9 witness: for a one-pair copy whose guard URL is a string
differing from the live URL and from "about:blank", the guard URL is
reported.
-/
theorem c9_url_override_amended_witness :
    getStateUrl [⟨some "p", .mk (some (.str "https://a/end")) none none .none .none .none none none, []⟩]
      "https://a/redirected" = some (.str "https://a/end") :=
  (((c9_url_override_amended
      [⟨some "p", .mk (some (.str "https://a/end")) none none .none .none .none none none, []⟩]
      "https://a/redirected").2
    ⟨some "p", .mk (some (.str "https://a/end")) none none .none .none .none none none, []⟩
    rfl).2.1 "https://a/end" rfl (by decide) (by decide))

/--
Claim C9 counterexample: when the last remaining pair has no `url` key,
the source still takes the override branch (in JS `undefined` is
strictly unequal to any string), so the reported URL is undefined
rather than the live URL — refuting the claim that the live URL is
reported whenever the last pair does not hold a differing URL string.
-/
theorem c9_url_override_counterexample :
    getStateUrl [⟨some "p", emptyWhere, []⟩] "https://a" = none ∧
    (none : Option StrOrRe) ≠ some (.str "https://a") := by
  constructor
  · rfl
  · intro h
    cases h

/-! ### Action executor -/

/--
An observable driver invocation performed by `Interpreter.carryOutSteps`:
a built-in interpreter action, a driver method call resolved from the
dotted action path, the forced retry of a failed click (args rebuilt as
the first element of the original args plus a force option), or the
retry of a failed waitForLoadState with the argument "domcontentloaded".
-/
inductive Ev where
  | builtin (name : String) (args : ArgsV)
  | invoke (methodName : String) (args : ArgsV)
  | invokeForced (methodName : String) (sel : Option String)
  | invokeDom (methodName : String)
deriving DecidableEq, Repr

/--
The built-in actions of `carryOutSteps` (the keys of `wawActions`).
-/
def wawActionNames : List String :=
  ["screenshot", "enqueueLinks", "scrape", "scrapeSchema", "scrapeList",
   "scrapeListAuto", "scroll", "script", "flag"]

/--
Splitting a character list at every dot, as JS `String.split` does:
"a.b.c" yields the three components, and a string without dots yields
itself as the only component.
-/
def splitDotAux : List Char → List Char → List String
  | [], acc => [String.mk acc.reverse]
  | c :: cs, acc =>
      if c = '.' then String.mk acc.reverse :: splitDotAux cs []
      else splitDotAux cs (c :: acc)

/--
The method name of a dotted action path: the final component of the
split on ".", as in `carryOutSteps` (`levels[levels.length - 1]`).
-/
def methodNameOf (action : String) : String :=
  (splitDotAux action.toList []).getLastD action

/--
JavaScript indexing `args[0]` on the argument value, used to rebuild the
arguments of the forced click retry: the head of a list, the first
character of a string (JS string indexing), and `undefined` otherwise.
-/
def jsIndex0 : ArgsV → Option String
  | .noArgs => none
  | .single s => if s.isEmpty then none else some (s.take 1)
  | .list [] => none
  | .list (x :: _) => some x

/--
Consume one outcome from the oracle of driver-call results; an
exhausted oracle defaults to success.
-/
def nextO (o : List Bool) : Bool × List Bool :=
  (o.headD true, o.tail)

/-- Prepend events of the current step to the result of the remaining steps. -/
def prependEvs (evs : List Ev) (r : List Ev × List Bool × Bool) :
    List Ev × List Bool × Bool :=
  (evs ++ r.1, r.2.1, r.2.2)

/--
`Interpreter.carryOutSteps` as a trace semantics: walk the body; each
attempted driver invocation or built-in call consumes one success flag
from the oracle.  Returns the performed invocations in order, the
remaining oracle, and whether the body raised (a failed built-in or a
failed non-special method propagates; `waitForLoadState` retries once
with "domcontentloaded" and propagates the retry failure; `click`
retries once with a force option and on a second failure silently
continues with the next action of the same body).  The fixed 500 ms
inter-action sleep is not observable here.
-/
def carryOutSteps : List WhatStep → List Bool → List Ev × List Bool × Bool
  | [], o => ([], o, false)
  | step :: rest, o =>
      if wawActionNames.contains step.action then
        let r1 := nextO o
        if r1.1 then prependEvs [.builtin step.action step.args] (carryOutSteps rest r1.2)
        else ([.builtin step.action step.args], r1.2, true)
      else
        let m := methodNameOf step.action
        if m = "waitForLoadState" then
          let r1 := nextO o
          if r1.1 then prependEvs [.invoke m step.args] (carryOutSteps rest r1.2)
          else
            let r2 := nextO r1.2
            if r2.1 then
              prependEvs [.invoke m step.args, .invokeDom m] (carryOutSteps rest r2.2)
            else ([.invoke m step.args, .invokeDom m], r2.2, true)
        else if m = "click" then
          let r1 := nextO o
          if r1.1 then prependEvs [.invoke m step.args] (carryOutSteps rest r1.2)
          else
            let r2 := nextO r1.2
            prependEvs [.invoke m step.args, .invokeForced m (jsIndex0 step.args)]
              (carryOutSteps rest r2.2)
        else
          let r1 := nextO o
          if r1.1 then prependEvs [.invoke m step.args] (carryOutSteps rest r1.2)
          else ([.invoke m step.args], r1.2, true)

/--
Claim C3 (corrected): a failed click is retried exactly once with the
force option (on the first element of the original arguments); if the
retry also fails, that click action alone is abandoned silently — no
error propagates — and execution continues with the remaining actions of
the same body (they are not skipped).
-/
theorem c3_click_retry_amended (act : String) (args : ArgsV) (rest : List WhatStep)
    (o : List Bool) (hb : wawActionNames.contains act = false)
    (hm : methodNameOf act = "click") :
    carryOutSteps (⟨act, args⟩ :: rest) (false :: false :: o) =
      prependEvs [.invoke "click" args, .invokeForced "click" (jsIndex0 args)]
        (carryOutSteps rest o) := by
  rw [carryOutSteps]
  simp only [hb, hm, nextO]
  norm_num
  intro h
  exact absurd h (by decide)

/--
Claim C3 witness: a concrete body with a twice-failing click followed by
a scrape; the scrape still runs and the body does not raise.
-/
theorem c3_click_retry_amended_witness :
    carryOutSteps [⟨"click", .list ["#btn"]⟩, ⟨"scrape", .noArgs⟩] [false, false, true] =
      prependEvs [.invoke "click" (.list ["#btn"]), .invokeForced "click" (some "#btn")]
        (carryOutSteps [⟨"scrape", .noArgs⟩] [true]) :=
  c3_click_retry_amended "click" (.list ["#btn"]) [⟨"scrape", .noArgs⟩] [true]
    (by decide) (by decide)

/--
Claim C3 counterexample: with a click failing both its attempts, the
following action of the same pair body is still executed (the scrape
built-in appears in the trace) and the body completes without raising —
refuting the claim that the remaining actions of the body are skipped.
-/
theorem c3_click_retry_counterexample :
    carryOutSteps [⟨"click", .list ["#btn"]⟩, ⟨"scrape", .noArgs⟩] [false, false, true] =
      ([.invoke "click" (.list ["#btn"]), .invokeForced "click" (some "#btn"),
        .builtin "scrape" .noArgs], [], false) ∧
    Ev.builtin "scrape" .noArgs ∈
      (carryOutSteps [⟨"click", .list ["#btn"]⟩, ⟨"scrape", .noArgs⟩] [false, false, true]).1 := by
  decide

/-! ### Main loop -/

/--
One observation of the environment per loop iteration of
`Interpreter.runLoop`: whether the page is closed or the interpreter
stopped before the iteration, the page state computed by `getState`
(browser-dependent, hence oracle-supplied), and whether executing the
matched pair body raised.
-/
structure Obs where
  closed : Bool
  state : PageState
  throws : Bool

/--
The per-page loop state of `Interpreter.runLoop`.  Each pair of the
workflow copy carries a numeric token modelling JS object identity (the
copy's pairs are distinct objects; `lastAction` is compared with `===`),
so `last` stores the token of the previously matched pair.
-/
structure LoopState where
  copy : List (Nat × Pair)
  used : List String
  last : Option Nat
  rc : Nat

/--
The initial loop state for a freshly deep-copied workflow (after
`removeSpecialSelectors`): pairwise-distinct tokens, no fired ids, no
last action, repeat count zero.
-/
def initLoopState (w : List Pair) : LoopState :=
  ⟨w.enum, [], none, 0⟩

/--
One iteration of the `while (true)` loop of `Interpreter.runLoop` with
`maxRepeats = m`: halt (`none`) when the page is closed or the
interpreter stopped, when no pair matches, or when the repeat guard
fires (`maxRepeats` truthy and the updated repeat count exceeds it);
otherwise fire the matched pair and return its token with the next
state.  On a body exception the pair is neither recorded in the fired
ids nor removed from the copy, but `lastAction` is updated either way
(the assignment precedes the try block in the source).
-/
def loopIter (m : Nat) (st : LoopState) (o : Obs) : Option (Nat × LoopState) :=
  if o.closed then none
  else
    match getMatchingActionId (st.copy.map Prod.snd) o.state st.used with
    | none => none
    | some i =>
        let tp := st.copy.getD i (0, defaultPair)
        let rc' := if st.last = some tp.1 then st.rc + 1 else 0
        if m ≠ 0 ∧ m < rc' then none
        else
          some (tp.1,
            ⟨if o.throws then st.copy else st.copy.eraseIdx i,
             if o.throws then st.used else st.used ++ [tp.2.id.getD "undefined"],
             some tp.1,
             rc'⟩)

/--
The trace of fired pair tokens of `Interpreter.runLoop` under a list of
per-iteration observations: the loop fires pairs until it halts or the
observations are exhausted.
-/
def runTrace (m : Nat) : LoopState → List Obs → List Nat
  | _, [] => []
  | st, o :: rest =>
      match loopIter m st o with
      | none => []
      | some (tok, st') => tok :: runTrace m st' rest

/-- Length of the constant run at the head of a token list. -/
def headRun (t : Nat) : List Nat → Nat
  | [] => 0
  | x :: r => if x = t then headRun t r + 1 else 0

/-- A replicated block at the head witnesses a head run at least as long. -/
theorem headRun_replicate_append (t : Nat) (l : List Nat) :
    ∀ (k : Nat), k ≤ headRun t (List.replicate k t ++ l)
  | 0 => Nat.zero_le _
  | k + 1 => by
      rw [List.replicate_succ, List.cons_append, headRun]
      rw [if_pos rfl]
      exact Nat.succ_le_succ (headRun_replicate_append t l k)

/-- Unfolding a successful loop iteration. -/
theorem loopIter_some (m : Nat) (st : LoopState) (o : Obs) (tok : Nat) (st' : LoopState)
    (h : loopIter m st o = some (tok, st')) :
    st'.last = some tok ∧
    st'.rc = (if st.last = some tok then st.rc + 1 else 0) ∧
    ¬(m ≠ 0 ∧ m < st'.rc) := by
  rw [loopIter] at h
  by_cases hc : o.closed = true
  · rw [if_pos hc] at h
    cases h
  · rw [if_neg hc] at h
    cases hmatch : getMatchingActionId (st.copy.map Prod.snd) o.state st.used with
    | none => rw [hmatch] at h; cases h
    | some i =>
      rw [hmatch] at h
      simp only at h
      by_cases hrep : m ≠ 0 ∧ m < (if st.last = some (st.copy.getD i (0, defaultPair)).1
          then st.rc + 1 else 0)
      · rw [if_pos hrep] at h
        cases h
      · rw [if_neg hrep] at h
        simp only [Option.some.injEq, Prod.mk.injEq] at h
        obtain ⟨h1, h2⟩ := h
        subst h1
        subst h2
        exact ⟨rfl, rfl, hrep⟩

/--
Head-run bound on the emitted trace: with a truthy repeat limit `m` and
a repeat count within bound, the trace continues the current pair's run
for at most `m - rc` more firings and starts any other pair's run with
at most `m + 1` firings.
-/
theorem runTrace_headRun_bound (m : Nat) (hm : m ≠ 0) :
    ∀ (obs : List Obs) (st : LoopState), st.rc ≤ m →
      (∀ t, st.last = some t → headRun t (runTrace m st obs) + st.rc ≤ m) ∧
      (∀ t, st.last ≠ some t → headRun t (runTrace m st obs) ≤ m + 1) := by
  intro obs
  induction obs with
  | nil =>
    intro st hrc
    constructor
    · intro t _
      simpa [runTrace, headRun] using hrc
    · intro t _
      simp [runTrace, headRun]
  | cons o rest ih =>
    intro st hrc
    cases hit : loopIter m st o with
    | none =>
      constructor
      · intro t _
        simpa [runTrace, hit, headRun] using hrc
      · intro t _
        simp [runTrace, hit, headRun]
    | some p =>
      obtain ⟨tok, st'⟩ := p
      obtain ⟨hlast', hrc', hguard⟩ := loopIter_some m st o tok st' hit
      have hrc'le : st'.rc ≤ m := by
        by_cases hcase : st.last = some tok
        · rw [if_pos hcase] at hrc'
          by_contra hgt
          exact hguard ⟨hm, by omega⟩
        · rw [if_neg hcase] at hrc'
          omega
      obtain ⟨ih1, ih2⟩ := ih st' hrc'le
      have htr : runTrace m st (o :: rest) = tok :: runTrace m st' rest := by
        simp [runTrace, hit]
      constructor
      · intro t hlt
        by_cases htok : t = tok
        · subst htok
          rw [if_pos hlt] at hrc'
          have h1 := ih1 t hlast'
          rw [htr, headRun, if_pos rfl]
          omega
        · rw [htr, headRun, if_neg (fun hh => htok hh.symm)]
          omega
      · intro t hne
        by_cases htok : t = tok
        · subst htok
          rw [if_neg hne] at hrc'
          have h1 := ih1 t hlast'
          rw [htr, headRun, if_pos rfl]
          omega
        · rw [htr, headRun, if_neg (fun hh => htok hh.symm)]
          omega

/--
Every suffix of the emitted trace starts with a constant run of length
at most `m + 1`.
-/
theorem runTrace_drop_bound (m : Nat) (hm : m ≠ 0) :
    ∀ (obs : List Obs) (st : LoopState), st.rc ≤ m →
      ∀ (t n : Nat), headRun t ((runTrace m st obs).drop n) ≤ m + 1 := by
  intro obs
  induction obs with
  | nil =>
    intro st _ t n
    simp [runTrace, headRun]
  | cons o rest ih =>
    intro st hrc t n
    cases hit : loopIter m st o with
    | none =>
      simp [runTrace, hit, headRun]
    | some p =>
      obtain ⟨tok, st'⟩ := p
      obtain ⟨hlast', hrc', hguard⟩ := loopIter_some m st o tok st' hit
      have hrc'le : st'.rc ≤ m := by
        by_cases hcase : st.last = some tok
        · rw [if_pos hcase] at hrc'
          by_contra hgt
          exact hguard ⟨hm, by omega⟩
        · rw [if_neg hcase] at hrc'
          omega
      have htr : runTrace m st (o :: rest) = tok :: runTrace m st' rest := by
        simp [runTrace, hit]
      cases n with
      | zero =>
        obtain ⟨h1, h2⟩ := runTrace_headRun_bound m hm rest st' hrc'le
        by_cases htok : t = tok
        · subst htok
          have := h1 t hlast'
          rw [htr, List.drop_zero, headRun, if_pos rfl]
          omega
        · rw [htr, List.drop_zero, headRun, if_neg (fun hh => htok hh.symm)]
          omega
      | succ k =>
        rw [htr, List.drop_succ_cons]
        exact ih st' hrc'le t k

/-- The empty guard matches any state and any history. -/
theorem applicable_emptyWhere (st : PageState) (used : List String) :
    applicable emptyWhere st used = true := by
  simp [applicable, emptyWhere, urlOk, cookiesOk, selectorsOk, wandOk, worOk, wnotOk,
    beforeOk, afterOk]

/--
A pair with an empty guard (matches every state) and an empty body used
in concrete loop runs.
-/
def pairTriv : Pair :=
  ⟨some "p", emptyWhere, []⟩

/--
An observation with the page open and the matched body raising, so the
pair stays in the workflow copy and can be matched again.
-/
def obsThrow : Obs :=
  ⟨false, ⟨"u", [], []⟩, true⟩

/--
Claim C2 (corrected): with a truthy repeat limit `m` (at least 1), no
pair fires more than `m + 1` times consecutively: the fired-token trace
of a run never contains `m + 2` consecutive occurrences of the same
pair.  When the same pair is matched again after `m + 1` consecutive
firings, the loop terminates instead of firing it.
-/
theorem c2_repeat_bound_amended (m : Nat) (w : List Pair) (obs : List Obs)
    (t : Nat) (pre post : List Nat) (hm : 1 ≤ m) :
    runTrace m (initLoopState w) obs ≠ pre ++ List.replicate (m + 2) t ++ post := by
  intro heq
  have hb := runTrace_drop_bound m (by omega) obs (initLoopState w)
    (by simp [initLoopState]) t pre.length
  rw [heq, List.append_assoc] at hb
  rw [List.drop_left pre (List.replicate (m + 2) t ++ post)] at hb
  have hr := headRun_replicate_append t post (m + 2)
  omega

/--
Claim C2 witness: the amended bound applied at a concrete one-pair
workflow with repeat limit 1.
-/
theorem c2_repeat_bound_amended_witness :
    1 ≤ 1 ∧
    runTrace 1 (initLoopState [pairTriv]) [obsThrow, obsThrow, obsThrow] ≠
      [] ++ List.replicate (1 + 2) 0 ++ [] :=
  ⟨by decide,
   c2_repeat_bound_amended 1 [pairTriv] [obsThrow, obsThrow, obsThrow] 0 [] [] (by decide)⟩

/--
Claim C2 counterexample: with `maxRepeats = 1`, a single always-matching
pair whose body raises fires twice consecutively (the repeat guard fires
only when the updated repeat count strictly exceeds the limit), refuting
the claim that a pair fires at most `m` times consecutively.
-/
theorem c2_repeat_counterexample :
    runTrace 1 (initLoopState [pairTriv]) [obsThrow, obsThrow, obsThrow] =
      [] ++ List.replicate (1 + 1) 0 ++ [] ∧ ¬(1 + 1 ≤ 1) := by
  decide

/--
Unbounded consecutive firing with `maxRepeats = 0`, by induction over
the number of iterations, for a loop state holding the single
always-matching pair.
-/
theorem runTrace_zero_repeat : ∀ (k : Nat) (used : List String) (last : Option Nat) (rc : Nat),
    runTrace 0 ⟨[(0, pairTriv)], used, last, rc⟩ (List.replicate k obsThrow) =
      List.replicate k 0 := by
  intro k
  induction k with
  | zero =>
    intro used last rc
    simp [runTrace]
  | succ k ih =>
    intro used last rc
    rw [List.replicate_succ]
    have hit : loopIter 0 ⟨[(0, pairTriv)], used, last, rc⟩ obsThrow =
        some (0, ⟨[(0, pairTriv)], used, some 0, if last = some 0 then rc + 1 else 0⟩) := by
      simp [loopIter, obsThrow, getMatchingActionId, findLastIdx, applicable_emptyWhere,
        pairTriv, defaultPair]
    simp only [runTrace, hit]
    rw [ih used (some 0) (if last = some 0 then rc + 1 else 0)]
    rw [List.replicate_succ]

/--
Claim C10 (confirmed): with `maxRepeats = 0` the repeat guard of
`runLoop` is disabled (the conjunct `this.options.maxRepeats` is falsy),
so an always-matching pair whose body keeps raising fires consecutively
without bound: for every `k`, a run of `k` iterations fires the same
pair `k` times in a row.
-/
theorem c10_zero_repeats_unbounded (k : Nat) :
    runTrace 0 (initLoopState [pairTriv]) (List.replicate k obsThrow) =
      List.replicate k 0 :=
  runTrace_zero_repeat k [] none 0

/-! ### Pagination engine -/

/--
JS truthiness of the configured `limit`: absent or zero is falsy, as in
the `config.limit && ...` test of `checkLimit`.
-/
def jsTruthyLimit : Option Nat → Bool
  | none => false
  | some l => l != 0

/--
The `checkLimit` helper of `Interpreter.handlePagination`: true when the
limit is truthy and the accumulated results have reached it (in which
case the source also slices the results down to the limit).
-/
def checkLimitB (limit : Option Nat) (all : List String) : Bool :=
  jsTruthyLimit limit && limit.getD 0 ≤ all.length

/-- The slice applied by `checkLimit`: the first `limit` results. -/
def capResults (limit : Option Nat) (all : List String) : List String :=
  all.take (limit.getD 0)

/--
The body of `scrapeCurrentPage`: filter the freshly scraped items
against the persistent `scrapedItems` set (items are identified by
their JSON serialization, embedded here as the item string itself) and
append the survivors to `allResults`.  Returns the updated set and the
updated accumulated results.
-/
def dedupAdd : List String → List String → List String → List String × List String
  | scraped, all, [] => (scraped, all)
  | scraped, all, it :: rest =>
      if scraped.contains it then dedupAdd scraped all rest
      else dedupAdd (scraped ++ [it]) (all ++ [it]) rest

/--
One observation of a `scrollDown` iteration: the scroll height measured
after scrolling, and the in-page scrape result used by the final
extraction when the height did not change.
-/
structure ScrollObs where
  height : Nat
  items : List String

/--
The `scrollDown` loop of `Interpreter.handlePagination`: scroll, wait,
compare the scroll height with its previous value; when unchanged,
perform one final in-page list extraction and return the accumulated
results concatenated with it (no dedup filtering and no limit slice on
this concatenation); otherwise remember the height, fall through to the
bottom `checkLimit` of the while loop, and iterate.
-/
def scrollDownRun (limit : Option Nat) : Nat → List String → List ScrollObs → Option (List String)
  | _, _, [] => none
  | prev, all, o :: rest =>
      if o.height = prev then some (all ++ o.items)
      else if checkLimitB limit all then some (capResults limit all)
      else scrollDownRun limit o.height all rest

/--
A full `scrollDown` pagination run: `previousHeight` starts at 0 and
`allResults` empty.
-/
def paginationScrollDown (limit : Option Nat) (obs : List ScrollObs) : Option (List String) :=
  scrollDownRun limit 0 [] obs

/--
One observation of a `clickNext` iteration: the in-page scrape result,
whether `findWorkingButton` found a next-page affordance (after its
per-selector retries), whether the `history.forward()` fallback reached
an unvisited URL, and whether the click/navigation retry loop
succeeded.
-/
structure NextObs where
  items : List String
  buttonFound : Bool
  fwdSuccess : Bool
  clickSuccess : Bool

/--
The `clickNext` loop of `Interpreter.handlePagination`: scrape and
dedup, return the capped results when the limit is reached; when no
button is found, fall back to `history.forward()` and return the
accumulated results if that fails; when the click retry loop fails,
return the accumulated results; otherwise run the bottom `checkLimit`
of the while loop and iterate.
-/
def clickNextRun (limit : Option Nat) : List String → List String → List NextObs → Option (List String)
  | _, _, [] => none
  | scraped, all, o :: rest =>
      let sa := dedupAdd scraped all o.items
      if checkLimitB limit sa.2 then some (capResults limit sa.2)
      else if !o.buttonFound then
        if o.fwdSuccess then
          if checkLimitB limit sa.2 then some (capResults limit sa.2)
          else clickNextRun limit sa.1 sa.2 rest
        else some sa.2
      else if !o.clickSuccess then some sa.2
      else
        if checkLimitB limit sa.2 then some (capResults limit sa.2)
        else clickNextRun limit sa.1 sa.2 rest

/--
One observation of a `clickLoadMore` inner iteration: whether
`findWorkingButton` found a load-more affordance, whether the click
retry loop succeeded, the scroll height measured after the click, and
the in-page scrape result.
-/
structure MoreObs where
  buttonFound : Bool
  clickSuccess : Bool
  height : Nat
  items : List String

/--
Adding the successful click of the current iteration to the click count
returned by the remaining iterations (`loadMoreCounter++`).
-/
def addClick (r : Option (List String) × Nat) : Option (List String) × Nat :=
  (r.1, r.2 + 1)

/--
The inner `while (true)` loop of the `clickLoadMore` case: find and
click the load-more button (each failure returns the accumulated
results), measure the scroll height, scrape and dedup, then apply the
three stop checks in source order — two consecutive clicks with no new
items, the limit, and an unchanged scroll height.  Returns the result
(`none` when the observations run out) and the number of successful
load-more clicks performed.
-/
def loadMoreInner (limit : Option Nat) :
    List String → List String → Nat → Nat → Nat → List MoreObs → Option (List String) × Nat
  | _, _, _, _, _, [] => (none, 0)
  | scraped, all, prev, noNew, prevH, o :: rest =>
      if !o.buttonFound then (some all, 0)
      else if !o.clickSuccess then (some all, 0)
      else
        let sa := dedupAdd scraped all o.items
        if sa.2.length ≤ prev then
          if noNew + 1 ≥ 2 then (some sa.2, 1)
          else if checkLimitB limit sa.2 then (some (capResults limit sa.2), 1)
          else if o.height = prevH then (some sa.2, 1)
          else addClick (loadMoreInner limit sa.1 sa.2 prev (noNew + 1) o.height rest)
        else
          if checkLimitB limit sa.2 then (some (capResults limit sa.2), 1)
          else if o.height = prevH then (some sa.2, 1)
          else addClick (loadMoreInner limit sa.1 sa.2 sa.2.length 0 o.height rest)

/--
A full `clickLoadMore` pagination run: scrape and dedup the initial
page, return the capped results when the limit is already reached,
otherwise enter the inner loop with `previousResultCount` set to the
accumulated length, the no-new-items counter at 0, and `previousHeight`
at its initial value 0.
-/
def clickLoadMoreRun (limit : Option Nat) (firstItems : List String) (obs : List MoreObs) :
    Option (List String) × Nat :=
  let sa := dedupAdd [] [] firstItems
  if checkLimitB limit sa.2 then (some (capResults limit sa.2), 0)
  else loadMoreInner limit sa.1 sa.2 sa.2.length 0 0 obs

example : paginationScrollDown (some 1) [⟨5, []⟩, ⟨5, ["a", "a"]⟩] = some ["a", "a"] := by decide
example : clickNextRun (some 2) [] [] [⟨["a", "b", "c"], true, true, true⟩] = some ["a", "b"] := by decide

/--
Deduplicated accumulation preserves distinctness: if the accumulated
results are distinct and all recorded in the scraped set, they stay so.
-/
theorem dedupAdd_sound : ∀ (items scraped all : List String),
    all.Nodup → (∀ x ∈ all, x ∈ scraped) →
    (dedupAdd scraped all items).2.Nodup ∧
    (∀ x ∈ (dedupAdd scraped all items).2, x ∈ (dedupAdd scraped all items).1) := by
  intro items
  induction items with
  | nil =>
    intro scraped all hnd hmem
    exact ⟨hnd, hmem⟩
  | cons it rest ih =>
    intro scraped all hnd hmem
    rw [dedupAdd]
    by_cases hc : scraped.contains it = true
    · rw [if_pos hc]
      exact ih scraped all hnd hmem
    · rw [if_neg hc]
      have hnotin : it ∉ scraped := fun hm => hc (List.elem_iff.mpr hm)
      have hnd' : (all ++ [it]).Nodup := by
        rw [List.nodup_append]
        exact ⟨hnd, List.nodup_singleton it,
          fun a ha hb => hnotin (by
            have : a = it := by simpa using hb
            exact this ▸ hmem a ha)⟩
      have hmem' : ∀ x ∈ all ++ [it], x ∈ scraped ++ [it] := by
        intro x hx
        rcases List.mem_append.mp hx with hx1 | hx2
        · exact List.mem_append.mpr (Or.inl (hmem x hx1))
        · exact List.mem_append.mpr (Or.inr hx2)
      exact ih (scraped ++ [it]) (all ++ [it]) hnd' hmem'

/-- Deduplicated accumulation only appends to the accumulated results. -/
theorem dedupAdd_grows : ∀ (items scraped all : List String),
    ∃ ext, (dedupAdd scraped all items).2 = all ++ ext := by
  intro items
  induction items with
  | nil =>
    intro scraped all
    exact ⟨[], by simp [dedupAdd]⟩
  | cons it rest ih =>
    intro scraped all
    rw [dedupAdd]
    by_cases hc : scraped.contains it = true
    · rw [if_pos hc]
      exact ih scraped all
    · rw [if_neg hc]
      obtain ⟨ext, hext⟩ := ih (scraped ++ [it]) (all ++ [it])
      exact ⟨it :: ext, by simpa using hext⟩

/--
Scraping a page whose items are all already in the scraped set changes
nothing.
-/
theorem dedupAdd_nothing_new : ∀ (items scraped all : List String),
    (∀ x ∈ items, x ∈ scraped) → dedupAdd scraped all items = (scraped, all) := by
  intro items
  induction items with
  | nil =>
    intro scraped all _
    rfl
  | cons it rest ih =>
    intro scraped all hsub
    rw [dedupAdd, if_pos (List.elem_iff.mpr (hsub it (List.mem_cons_self it rest)))]
    exact ih scraped all fun x hx => hsub x (List.mem_cons_of_mem it hx)

/-- A false `checkLimit` with a positive limit bounds the accumulation. -/
theorem checkLimitB_false_lt (L : Nat) (hL : 1 ≤ L) (all : List String)
    (h : checkLimitB (some L) all = false) : all.length < L := by
  simp only [checkLimitB, jsTruthyLimit, Option.getD_some, Bool.and_eq_false_iff] at h
  rcases h with h1 | h2
  · simp only [bne_eq_false_iff_eq] at h1
    omega
  · simpa [Nat.lt_iff_add_one_le] using h2

/-- The capped results are short and stay distinct. -/
theorem capResults_sound (L : Nat) (all : List String) (hnd : all.Nodup) :
    (capResults (some L) all).length ≤ L ∧ (capResults (some L) all).Nodup := by
  constructor
  · simp [capResults]
  · exact List.Nodup.sublist (List.take_sublist _ _) hnd

/--
Soundness of the `clickNext` loop: starting from distinct accumulated
results below a positive limit and recorded in the scraped set, any
delivered result respects the limit and stays distinct.
-/
theorem clickNextRun_sound (L : Nat) (hL : 1 ≤ L) :
    ∀ (obs : List NextObs) (scraped all : List String),
      all.Nodup → (∀ x ∈ all, x ∈ scraped) → all.length < L →
      ∀ r, clickNextRun (some L) scraped all obs = some r → r.length ≤ L ∧ r.Nodup := by
  intro obs
  induction obs with
  | nil =>
    intro scraped all _ _ _ r h
    cases h
  | cons o rest ih =>
    intro scraped all hnd hmem hlen r h
    simp only [clickNextRun] at h
    obtain ⟨hnd', hmem'⟩ := dedupAdd_sound o.items scraped all hnd hmem
    by_cases hcl : checkLimitB (some L) (dedupAdd scraped all o.items).2 = true
    · rw [if_pos hcl] at h
      cases h
      exact capResults_sound L _ hnd'
    · rw [if_neg hcl] at h
      have hlt : (dedupAdd scraped all o.items).2.length < L :=
        checkLimitB_false_lt L hL _ (Bool.of_not_eq_true hcl)
      by_cases hbtn : (!o.buttonFound) = true
      · rw [if_pos hbtn] at h
        by_cases hfwd : o.fwdSuccess = true
        · rw [if_pos hfwd, if_neg hcl] at h
          exact ih _ _ hnd' hmem' hlt r h
        · rw [if_neg hfwd] at h
          cases h
          exact ⟨Nat.le_of_lt hlt, hnd'⟩
      · rw [if_neg hbtn] at h
        by_cases hclk : (!o.clickSuccess) = true
        · rw [if_pos hclk] at h
          cases h
          exact ⟨Nat.le_of_lt hlt, hnd'⟩
        · rw [if_neg hclk, if_neg hcl] at h
          exact ih _ _ hnd' hmem' hlt r h

/--
Soundness of the `clickLoadMore` inner loop: starting from distinct
accumulated results below a positive limit, recorded in the scraped
set, with the previous-count marker not above the accumulated length,
any delivered result respects the limit and stays distinct.
-/
theorem loadMoreInner_sound (L : Nat) (hL : 1 ≤ L) :
    ∀ (obs : List MoreObs) (scraped all : List String) (prev noNew prevH : Nat),
      all.Nodup → (∀ x ∈ all, x ∈ scraped) → all.length < L → prev ≤ all.length →
      ∀ r, (loadMoreInner (some L) scraped all prev noNew prevH obs).1 = some r →
        r.length ≤ L ∧ r.Nodup := by
  intro obs
  induction obs with
  | nil =>
    intro scraped all prev noNew prevH _ _ _ _ r h
    cases h
  | cons o rest ih =>
    intro scraped all prev noNew prevH hnd hmem hlen hprev r h
    simp only [loadMoreInner] at h
    by_cases hbtn : (!o.buttonFound) = true
    · rw [if_pos hbtn] at h
      cases h
      exact ⟨Nat.le_of_lt hlen, hnd⟩
    · rw [if_neg hbtn] at h
      by_cases hclk : (!o.clickSuccess) = true
      · rw [if_pos hclk] at h
        cases h
        exact ⟨Nat.le_of_lt hlen, hnd⟩
      · rw [if_neg hclk] at h
        obtain ⟨hnd', hmem'⟩ := dedupAdd_sound o.items scraped all hnd hmem
        obtain ⟨ext, hext⟩ := dedupAdd_grows o.items scraped all
        have hgrow : all.length ≤ (dedupAdd scraped all o.items).2.length := by
          rw [hext]
          simp
        by_cases hnew : (dedupAdd scraped all o.items).2.length ≤ prev
        · rw [if_pos hnew] at h
          have heq : (dedupAdd scraped all o.items).2.length = all.length := by omega
          by_cases hcnt : noNew + 1 ≥ 2
          · rw [if_pos hcnt] at h
            cases h
            exact ⟨by omega, hnd'⟩
          · rw [if_neg hcnt] at h
            by_cases hcl : checkLimitB (some L) (dedupAdd scraped all o.items).2 = true
            · rw [if_pos hcl] at h
              cases h
              exact capResults_sound L _ hnd'
            · rw [if_neg hcl] at h
              have hlt : (dedupAdd scraped all o.items).2.length < L :=
                checkLimitB_false_lt L hL _ (Bool.of_not_eq_true hcl)
              by_cases hh : o.height = prevH
              · rw [if_pos hh] at h
                cases h
                exact ⟨Nat.le_of_lt hlt, hnd'⟩
              · rw [if_neg hh] at h
                simp only [addClick] at h
                exact ih _ _ _ _ _ hnd' hmem' hlt (by omega) r h
        · rw [if_neg hnew] at h
          by_cases hcl : checkLimitB (some L) (dedupAdd scraped all o.items).2 = true
          · rw [if_pos hcl] at h
            cases h
            exact capResults_sound L _ hnd'
          · rw [if_neg hcl] at h
            have hlt : (dedupAdd scraped all o.items).2.length < L :=
              checkLimitB_false_lt L hL _ (Bool.of_not_eq_true hcl)
            by_cases hh : o.height = prevH
            · rw [if_pos hh] at h
              cases h
              exact ⟨Nat.le_of_lt hlt, hnd'⟩
            · rw [if_neg hh] at h
              simp only [addClick] at h
              exact ih _ _ _ _ _ hnd' hmem' hlt (Nat.le_refl _) r h

/--
Claim C4 (corrected): for `clickNext` and `clickLoadMore` pagination
runs with a positive configured limit L, the result list delivered to
the serializable callback has length at most L and its items are
pairwise distinct under JSON serialization.  (The scroll strategies
deliver the accumulated results concatenated with a final undedupped
scrape, enforcing neither property; see the counterexample.)
-/
theorem c4_pagination_amended (L : Nat) (obs : List NextObs) (first : List String)
    (obs2 : List MoreObs) (r r2 : List String) (hL : 1 ≤ L) :
    (clickNextRun (some L) [] [] obs = some r → r.length ≤ L ∧ r.Nodup) ∧
    ((clickLoadMoreRun (some L) first obs2).1 = some r2 → r2.length ≤ L ∧ r2.Nodup) := by
  constructor
  · intro h
    exact clickNextRun_sound L hL obs [] [] (List.nodup_nil) (by simp) (by simpa using hL) r h
  · intro h
    rw [clickLoadMoreRun] at h
    obtain ⟨hnd', hmem'⟩ := dedupAdd_sound first [] [] List.nodup_nil (by simp)
    by_cases hcl : checkLimitB (some L) (dedupAdd [] [] first).2 = true
    · rw [if_pos hcl] at h
      simp only at h
      cases h
      exact capResults_sound L _ hnd'
    · rw [if_neg hcl] at h
      have hlt : (dedupAdd [] [] first).2.length < L :=
        checkLimitB_false_lt L hL _ (Bool.of_not_eq_true hcl)
      exact loadMoreInner_sound L hL obs2 _ _ _ 0 0 hnd' hmem' hlt (Nat.le_refl _) r2 h

/--
Claim C4 witness: concrete `clickNext` and `clickLoadMore` runs with
limit 2 whose delivered results are capped and distinct.
-/
theorem c4_pagination_amended_witness :
    ((["a", "b"] : List String).length ≤ 2 ∧ (["a", "b"] : List String).Nodup) ∧
    ((["a"] : List String).length ≤ 2 ∧ (["a"] : List String).Nodup) :=
  ⟨(c4_pagination_amended 2 [⟨["a", "b", "c"], true, true, true⟩] ["a"]
      [⟨true, true, 0, ["a"]⟩] ["a", "b"] ["a"] (by decide)).1 (by decide),
   (c4_pagination_amended 2 [⟨["a", "b", "c"], true, true, true⟩] ["a"]
      [⟨true, true, 0, ["a"]⟩] ["a", "b"] ["a"] (by decide)).2 (by decide)⟩

/--
Claim C4 counterexample: a `scrollDown` run with limit 1 whose page
yields two identical items delivers both — the final extraction is
concatenated without dedup filtering and without the limit slice —
refuting the claim for the scroll strategies.
-/
theorem c4_pagination_counterexample :
    paginationScrollDown (some 1) [⟨5, []⟩, ⟨5, ["a", "a"]⟩] = some ["a", "a"] ∧
    ¬((["a", "a"] : List String).length ≤ 1) ∧ ¬(["a", "a"] : List String).Nodup := by
  decide

/--
Claim C8 (confirmed): in a `clickLoadMore` run, (a) when an iteration
observes the scroll height unchanged after a successful click, the loop
returns at that iteration — exactly one click is performed regardless of
any further observations; and (b) when two consecutive iterations click
successfully and each scrape yields no new deduplicated items (with the
first iteration not stopped by the height or limit checks), the loop
returns the accumulated results after exactly those two clicks.
-/
theorem c8_loadmore_stops (limit : Option Nat) (scraped all : List String)
    (prev noNew prevH : Nat) (o o1 o2 : MoreObs) (rest rest2 : List MoreObs) :
    (o.buttonFound = true → o.clickSuccess = true → o.height = prevH →
      (loadMoreInner limit scraped all prev noNew prevH (o :: rest)).2 = 1 ∧
      ((loadMoreInner limit scraped all prev noNew prevH (o :: rest)).1).isSome = true) ∧
    (o1.buttonFound = true → o1.clickSuccess = true → (∀ x ∈ o1.items, x ∈ scraped) →
     o1.height ≠ prevH → checkLimitB limit all = false →
     o2.buttonFound = true → o2.clickSuccess = true → (∀ x ∈ o2.items, x ∈ scraped) →
      loadMoreInner limit scraped all all.length 0 prevH (o1 :: o2 :: rest2) =
        (some all, 2)) := by
  constructor
  · intro hb hc hh
    simp only [loadMoreInner, hb, hc, Bool.not_true, if_neg (by simp : ¬((false : Bool) = true))]
    by_cases hnew : (dedupAdd scraped all o.items).2.length ≤ prev
    · rw [if_pos hnew]
      by_cases hcnt : noNew + 1 ≥ 2
      · rw [if_pos hcnt]
        exact ⟨rfl, rfl⟩
      · rw [if_neg hcnt]
        by_cases hcl : checkLimitB limit (dedupAdd scraped all o.items).2 = true
        · rw [if_pos hcl]
          exact ⟨rfl, rfl⟩
        · rw [if_neg hcl, if_pos hh]
          exact ⟨rfl, rfl⟩
    · rw [if_neg hnew]
      by_cases hcl : checkLimitB limit (dedupAdd scraped all o.items).2 = true
      · rw [if_pos hcl]
        exact ⟨rfl, rfl⟩
      · rw [if_neg hcl, if_pos hh]
        exact ⟨rfl, rfl⟩
  · intro hb1 hc1 hsub1 hh1 hcl hb2 hc2 hsub2
    have hd1 : dedupAdd scraped all o1.items = (scraped, all) :=
      dedupAdd_nothing_new o1.items scraped all hsub1
    have hd2 : dedupAdd scraped all o2.items = (scraped, all) :=
      dedupAdd_nothing_new o2.items scraped all hsub2
    rw [loadMoreInner]
    simp only [hb1, hc1, Bool.not_true, if_neg (by simp : ¬((false : Bool) = true)), hd1]
    rw [if_pos (Nat.le_refl _)]
    rw [if_neg (by omega : ¬(0 + 1 ≥ 2))]
    rw [if_neg (by simp [hcl] : ¬(checkLimitB limit all = true))]
    rw [if_neg hh1]
    rw [loadMoreInner]
    simp only [hb2, hc2, Bool.not_true, if_neg (by simp : ¬((false : Bool) = true)), hd2]
    rw [if_pos (Nat.le_refl _)]
    rw [if_pos (by omega : 1 + 1 ≥ 2)]
    rfl

/--
Claim C8 witness: a concrete run exercising both stop conditions — a
height-stable click stops after one click, and two consecutive unfruitful
clicks stop after exactly two clicks with the accumulated results
returned.
-/
theorem c8_loadmore_stops_witness :
    ((loadMoreInner (some 5) ["a"] ["a"] 1 0 7 [⟨true, true, 7, ["a"]⟩]).2 = 1 ∧
     ((loadMoreInner (some 5) ["a"] ["a"] 1 0 7 [⟨true, true, 7, ["a"]⟩]).1).isSome = true) ∧
    (loadMoreInner (some 5) ["a"] ["a"] 1 0 7 [⟨true, true, 9, ["a"]⟩, ⟨true, true, 11, ["a"]⟩] =
      (some ["a"], 2)) :=
  ⟨(c8_loadmore_stops (some 5) ["a"] ["a"] 1 0 7 ⟨true, true, 7, ["a"]⟩
      ⟨true, true, 9, ["a"]⟩ ⟨true, true, 11, ["a"]⟩ [] []).1 rfl rfl rfl,
   (c8_loadmore_stops (some 5) ["a"] ["a"] 1 0 7 ⟨true, true, 7, ["a"]⟩
      ⟨true, true, 9, ["a"]⟩ ⟨true, true, 11, ["a"]⟩ [] []).2 rfl rfl (by decide) (by decide)
      (by decide) rfl rfl (by decide)⟩
